import Mathlib

/-!
Verification of the quickETL scheduler core: a shallow embedding of
`src/etl/app/services/scheduler_service.py`,
`src/etl/app/services/execution_service.py` and the termination endpoints of
`src/etl/app/api/debug.py`, together with theorems settling the specified
properties of scheduling, execution and termination.

Machine integers are modelled as `Nat`; timestamps are abstract `Nat` ticks;
the external cron libraries (croniter / the apscheduler CronTrigger, which parse
the same expression) are modelled as one oracle `String → Nat → Option Nat`
returning the next fire time, `none` when parsing raises.  Database rows are
lists of records; an ORM attribute write reaches the database only at a
`db.session.commit()`, which the embeddings make explicit.
-/

namespace QuickETL

/-! ## Data model (src/etl/app/models/jobs.py, src/etl/app/models/job_run.py) -/

/-- The `status` column of `job_runs`: the string enum
`{pending, running, success, failed}` used by the code. -/
inductive RunStatus
  | pending
  | running
  | success
  | failed
deriving DecidableEq, Repr

/-- `JobRun.is_completed`: success and failed are the terminal statuses. -/
def RunStatus.isTerminal : RunStatus → Bool
  | .success => true
  | .failed => true
  | _ => false

/-- A row of the `jobs` table (fields relevant to scheduling/execution).
`config` holds the JSON-serialized configuration blob. -/
structure Job where
  id : Nat
  name : String
  script_path : String
  cron_expression : String
  enabled : Bool
  last_run_at : Option Nat
  next_run_at : Option Nat
  config : String
deriving DecidableEq, Repr

/-- A row of the `job_runs` table. -/
structure JobRun where
  id : Nat
  job_id : Nat
  status : RunStatus
  started_at : Option Nat
  completed_at : Option Nat
  output : Option String
  error_message : Option String
  duration_seconds : Option Nat
deriving DecidableEq, Repr

/-! ## Scheduler entries (APScheduler state owned by SchedulerService)

Entry ids in the source are strings: `f"job_{job.id}"` for recurring entries
and `f"manual_job_{job_id}_{datetime.now().timestamp()}"` for one-shot manual
entries.  Both encodings are injective in their components, so they are
embedded as a structured id type. -/

inductive EntryId
  | recurring (jobId : Nat)
  | manual (jobId : Nat) (ts : Nat)
deriving DecidableEq, Repr

/-- One positional argument bound at `add_job(...)` time.  Both call sites in
`scheduler_service.py` pass `args=[self.app, job.id, self.scheduler]`. -/
inductive BoundArg
  | app
  | jobIdArg (n : Nat)
  | schedulerArg
deriving DecidableEq, Repr

/-- An APScheduler entry: id, display name, next fire time, and the positional
arguments bound to the callback `ExecutionService.execute_job`. -/
structure SchedEntry where
  entryId : EntryId
  name : String
  nextRunTime : Option Nat
  boundArgs : List BoundArg
deriving DecidableEq, Repr

/-- The parameter list of `ExecutionService.execute_job` in
`src/etl/app/services/execution_service.py`: `def execute_job(app, job_id)`. -/
def executeJobParams : List String := ["app", "job_id"]

/-- When an entry fires, APScheduler calls `func(*args)`; the call enters the
function body only if the number of bound positional arguments equals the
number of parameters of `execute_job` (otherwise Python raises a TypeError at
the call boundary). -/
def fireCallOk (e : SchedEntry) : Bool :=
  e.boundArgs.length == executeJobParams.length

/-- Combined persisted + in-memory scheduler state: the `jobs` table and the
live APScheduler entry list. -/
structure SchedState where
  jobs : List Job
  entries : List SchedEntry
deriving Repr

/-- `Job.query.get(job_id)`. -/
def findJob (js : List Job) (i : Nat) : Option Job :=
  js.find? (fun j => j.id == i)

/-- Commit an attribute update on the job row with the given id. -/
def updateJobRow (js : List Job) (i : Nat) (f : Job → Job) : List Job :=
  js.map (fun j => if j.id == i then f j else j)

/-- `scheduler.remove_job(id)` (tolerating absence, as both call sites do). -/
def removeEntry (es : List SchedEntry) (eid : EntryId) : List SchedEntry :=
  es.filter (fun e => !(e.entryId == eid))

/-- Whether a live entry with the given id exists. -/
def hasEntry (es : List SchedEntry) (eid : EntryId) : Bool :=
  es.any (fun e => e.entryId == eid)

/-! ## SchedulerService (src/etl/app/services/scheduler_service.py) -/

/-- `SchedulerService.schedule_job(job)`.  `cronNext` is the oracle for the
external trigger pipeline on the enabled path — `croniter` parsing,
`CronTrigger.from_crontab` on the same expression, and the `add_job`
installation (which in apscheduler 3.x also validates the bound callable
arguments; see the C1 result): `some t` means the pipeline installed an
entry with next fire time `t`, `none` that some step raised.  The body is
wrapped in `try/except` that only logs, so the embedding is a total
function; on a pipeline failure the only effect that has already happened is
the initial `remove_job`, and neither an entry nor `next_run_at` is
written. -/
def schedule_job (cronNext : String → Nat → Option Nat) (now : Nat)
    (st : SchedState) (job : Job) : SchedState :=
  let entries := removeEntry st.entries (.recurring job.id)
  if job.enabled = false then
    { jobs := updateJobRow st.jobs job.id (fun j => { j with next_run_at := none }),
      entries := entries }
  else
    match cronNext job.cron_expression now with
    | none => { st with entries := entries }
    | some t =>
      { jobs := updateJobRow st.jobs job.id (fun j => { j with next_run_at := some t }),
        entries := entries ++
          [{ entryId := .recurring job.id, name := job.name, nextRunTime := some t,
             boundArgs := [.app, .jobIdArg job.id, .schedulerArg] }] }

/-- `SchedulerService.unschedule_job(job_id)`: removes the entry (idempotent);
touches no database column. -/
def unschedule_job (st : SchedState) (jobId : Nat) : SchedState :=
  { st with entries := removeEntry st.entries (.recurring jobId) }

/-- APScheduler `add_job` with `replace_existing` left at its default `False`:
raises `ConflictingIdError` when an entry with the same id is present. -/
def addJobNoReplace (es : List SchedEntry) (e : SchedEntry) :
    Except String (List SchedEntry) :=
  if hasEntry es e.entryId then .error "ConflictingIdError"
  else .ok (es ++ [e])

/-- `SchedulerService.schedule_manual_job(job_id, job_name)`: installs a
one-shot entry whose id embeds `datetime.now().timestamp()` (`nowTs`); the
`try/except` returns `false` instead of raising, so the embedding is a total
function into `SchedState × Bool`. -/
def schedule_manual_job (st : SchedState) (nowTs : Nat) (jobId : Nat)
    (jobName : String) : SchedState × Bool :=
  let entry : SchedEntry :=
    { entryId := .manual jobId nowTs, name := "Manual run: " ++ jobName,
      nextRunTime := some nowTs,
      boundArgs := [.app, .jobIdArg jobId, .schedulerArg] }
  match addJobNoReplace st.entries entry with
  | .ok es => ({ st with entries := es }, true)
  | .error _ => (st, false)

/-- `SchedulerService.load_existing_jobs()`: first clears `next_run_at` on
every disabled job, then calls `schedule_job` on every enabled job.  (The
per-row clearing and the final commit both persist before the function
returns.) -/
def load_existing_jobs (cronNext : String → Nat → Option Nat) (now : Nat)
    (st : SchedState) : SchedState :=
  let cleared : SchedState :=
    { st with jobs := st.jobs.map (fun j =>
        if j.enabled then j else { j with next_run_at := none }) }
  (cleared.jobs.filter (fun j => j.enabled)).foldl (schedule_job cronNext now) cleared

/-! ## ExecutionService (src/etl/app/services/execution_service.py) -/

/-- Outcome of `subprocess.run([sys.executable, script_path], ...)`:
either the process completed (any exit code; stdout/stderr captured), or an
exception was raised while spawning or waiting (`TimeoutExpired` after the
3600 s ceiling, `OSError`, ...), carrying `str(e)`. -/
inductive ProcResult
  | completed (returncode : Int) (stdout stderr : String)
  | raised (msg : String)
deriving DecidableEq, Repr

/-- External context of one `execute_job` invocation: the filesystem
(`os.path.exists`), the subprocess outcome, whether `app.scheduler_service`
exists, and the result of `scheduler.get_job("job_<id>")` —
`none` = entry not found (or the lookup raised, which the code handles the
same way), `some nrt` = entry found with `next_run_time = nrt`. -/
structure ExecCtx where
  fsExists : String → Bool
  procResult : ProcResult
  hasSchedulerService : Bool
  entryNextRun : Option (Option Nat)

/-- One write performed on the run ledger by `execute_job`: the initial
insert-and-commit of the `running` row, or the final committed update. -/
inductive LedgerWrite
  | create (r : JobRun)
  | update (r : JobRun)
deriving DecidableEq, Repr

/-- Result of one `execute_job` invocation: the sequence of ledger writes,
the run row as finally persisted, and the job row as finally persisted
(`none` when the job id does not exist). -/
structure ExecResult where
  runWrites : List LedgerWrite
  finalRun : Option JobRun
  jobRow : Option Job
deriving Repr

/-- `ExecutionService.execute_job(app, job_id)`.  `runId` is the
autoincremented run id; `tCreate` is the row-default `started_at`
(`datetime.utcnow`), `tStart` the `start_time` read at the top of the `try`,
`tEnd` the `end_time` read when the outcome is known.  A missing script
raises `FileNotFoundError(f"Script not found: {script_path}")`, handled by
the same `except` branch as any spawn/wait exception; that branch does not
touch the job row.  The `finally` block commits whatever was set. -/
def execute_job (ctx : ExecCtx) (runId tCreate tStart tEnd : Nat)
    (jobs : List Job) (jobId : Nat) : ExecResult :=
  match findJob jobs jobId with
  | none => { runWrites := [], finalRun := none, jobRow := none }
  | some job =>
    let run0 : JobRun :=
      { id := runId, job_id := jobId, status := .running,
        started_at := some tCreate, completed_at := none, output := none,
        error_message := none, duration_seconds := none }
    if ctx.fsExists job.script_path = false then
      let run1 : JobRun :=
        { run0 with
          completed_at := some tEnd,
          duration_seconds := some (tEnd - tStart),
          status := .failed,
          error_message := some ("Script not found: " ++ job.script_path) }
      { runWrites := [.create run0, .update run1], finalRun := some run1,
        jobRow := some job }
    else
      match ctx.procResult with
      | .raised msg =>
        let run1 : JobRun :=
          { run0 with
            completed_at := some tEnd,
            duration_seconds := some (tEnd - tStart),
            status := .failed,
            error_message := some msg }
        { runWrites := [.create run0, .update run1], finalRun := some run1,
          jobRow := some job }
      | .completed code out err =>
        let run1 : JobRun :=
          { run0 with
            completed_at := some tEnd,
            duration_seconds := some (tEnd - tStart),
            output := some out }
        let run2 : JobRun :=
          if code == 0 then { run1 with status := .success }
          else { run1 with status := .failed, error_message := some err }
        let job1 : Job := { job with last_run_at := some tStart }
        let job2 : Job :=
          if ctx.hasSchedulerService && job.enabled then
            match ctx.entryNextRun with
            | some (some nrt) => { job1 with next_run_at := some nrt }
            | _ => job1
          else job1
        { runWrites := [.create run0, .update run2], finalRun := some run2,
          jobRow := some job2 }

/-- The three job-identity environment variable names set by `execute_job`. -/
def jobIdentityKeys : List String := ["JOB_CONFIG", "JOB_ID", "JOB_NAME"]

/-- The child process environment built by `execute_job`:
`env = os.environ.copy()` followed by assignments of `JOB_CONFIG`, `JOB_ID`
and `JOB_NAME`.  Environments are finite maps embedded as lookup functions. -/
def buildChildEnv (parent : String → Option String) (job : Job) (jobId : Nat) :
    String → Option String :=
  fun k =>
    if k = "JOB_CONFIG" then some job.config
    else if k = "JOB_ID" then some (toString jobId)
    else if k = "JOB_NAME" then some job.name
    else parent k

/-- Comparator realizing `order_by(JobRun.started_at.desc())` on the backing
PostgreSQL store: descending on `started_at`, with NULLs first (PostgreSQL
treats NULL as largest, so DESC puts NULLs first). -/
def startedDescLE (a b : JobRun) : Bool :=
  match a.started_at, b.started_at with
  | none, _ => true
  | some _, none => false
  | some x, some y => decide (y ≤ x)

/-- The ordering relation of the run-history query, as a proposition. -/
def startedDesc (a b : JobRun) : Prop := startedDescLE a b = true

instance : DecidableRel startedDesc :=
  fun a b => inferInstanceAs (Decidable (startedDescLE a b = true))

instance : IsTrans JobRun startedDesc where
  trans a b c h1 h2 := by
    unfold startedDesc startedDescLE at h1 h2 ⊢
    cases ha : a.started_at <;> cases hb : b.started_at <;>
      cases hc : c.started_at <;> simp_all
    omega

instance : IsTotal JobRun startedDesc where
  total a b := by
    unfold startedDesc startedDescLE
    cases ha : a.started_at <;> cases hb : b.started_at <;> simp
    omega

/-- `ExecutionService.get_job_runs(job_id, limit)`: raises
`ValueError(f"Job {job_id} not found")` when the job id does not exist,
otherwise returns the runs of that job ordered by `started_at` descending,
bounded by `limit`. -/
def get_job_runs (jobs : List Job) (runs : List JobRun) (jobId : Nat)
    (limit : Nat) : Except String (List JobRun) :=
  match findJob jobs jobId with
  | none => .error ("Job " ++ toString jobId ++ " not found")
  | some _ =>
    .ok (((runs.filter (fun r => r.job_id == jobId)).insertionSort
            startedDesc).take limit)

/-! ## Termination coordinator (src/etl/app/api/debug.py)

The module `src/etl/app/api/debug.py` imports, at the top level, only
`Blueprint`, `jsonify`, `logging` and `Job`, and binds the module globals
`logger`, `debug_bp`, `scheduler_service`, `set_scheduler_service`; the kill
handlers additionally import `JobRun`, `psutil` (and `signal`).  Its ledger
loops nevertheless evaluate the names `datetime` (in
`job_run.completed_at = datetime.now()`) and `db` (in
`db.session.commit()`); Python resolves those against this scope. -/

/-- Names resolvable inside the kill handlers of `src/etl/app/api/debug.py`
(module imports, module globals, and the local imports of the handlers).  Neither
`datetime` nor `db` is among them. -/
def debugModuleScope : List String :=
  ["Blueprint", "jsonify", "logging", "Job", "logger", "debug_bp",
   "scheduler_service", "set_scheduler_service", "JobRun", "psutil", "signal"]

/-- Python name resolution: a NameError is raised when the name is not bound
in the enclosing scope. -/
def lookupName (scope : List String) (n : String) : Except String Unit :=
  if scope.contains n then .ok ()
  else .error ("NameError: name " ++ n ++ " is not defined")

/-- Database outcome of one iteration of the per-run loop in
`kill_running_jobs` / `kill_specific_job`: the run row as persisted
afterwards, and the error string appended to `failed_kills` if the iteration
raised. -/
structure KillRowResult where
  persisted : JobRun
  failure : Option String
deriving DecidableEq, Repr

/-- One iteration of the ledger loop: set `status`, `error_message`,
`completed_at = datetime.now()`, compute `duration_seconds` when
`started_at` is set, then `db.session.commit()`.  ORM attribute writes reach
the database only at the commit; an exception raised before it is caught by
the per-row `except`, the row stays as it was in the database, and the error
is recorded. -/
def markRunKilled (scope : List String) (now : Nat) (run : JobRun) :
    KillRowResult :=
  match lookupName scope "datetime" with
  | .error e => { persisted := run, failure := some e }
  | .ok _ =>
    let run1 : JobRun :=
      { run with
        status := .failed,
        error_message := some "Job execution killed by admin",
        completed_at := some now,
        duration_seconds :=
          match run.started_at with
          | some s => some (now - s)
          | none => run.duration_seconds }
    match lookupName scope "db" with
    | .error e => { persisted := run, failure := some e }
    | .ok _ => { persisted := run1, failure := none }

/-- The per-row action of the ledger pass of the kill endpoints: rows are
selected by `filter_by(status=running)`, optionally also by
`filter_by(job_id=job_id)`; unselected rows are untouched. -/
def killRunRow (scope : List String) (now : Nat) (filterJob : Option Nat)
    (r : JobRun) : KillRowResult :=
  let selected :=
    (match filterJob with
     | some j => r.job_id == j
     | none => true) && r.status == RunStatus.running
  if selected then markRunKilled scope now r
  else { persisted := r, failure := none }

/-- Ledger pass of `kill_running_jobs` (terminateAll): every run in
`status=running`. Returns the runs table afterwards and the
`failed_kills` entries contributed by this pass. -/
def kill_running_jobs_ledger (scope : List String) (now : Nat)
    (runs : List JobRun) : List JobRun × List String :=
  ((runs.map (killRunRow scope now none)).map (fun k => k.persisted),
   (runs.map (killRunRow scope now none)).filterMap (fun k => k.failure))

/-- Ledger pass of `kill_specific_job` (terminateOne): every run of the
given job in `status=running`. -/
def kill_specific_job_ledger (scope : List String) (now : Nat) (jobId : Nat)
    (runs : List JobRun) : List JobRun × List String :=
  ((runs.map (killRunRow scope now (some jobId))).map (fun k => k.persisted),
   (runs.map (killRunRow scope now (some jobId))).filterMap (fun k => k.failure))

/-! ## Concrete fixtures used by counterexamples and witnesses -/

/-- An enabled job with a valid cron expression and a persisted next run. -/
def jobAlpha : Job :=
  { id := 1, name := "alpha", script_path := "/app/jobs/a.py",
    cron_expression := "*/5 * * * *", enabled := true,
    last_run_at := none, next_run_at := some 100, config := "cfgA" }

/-- The live recurring entry for `jobAlpha`, as `schedule_job` installs it. -/
def entAlpha : SchedEntry :=
  { entryId := .recurring 1, name := "alpha", nextRunTime := some 100,
    boundArgs := [.app, .jobIdArg 1, .schedulerArg] }

/-- State with `jobAlpha` scheduled. -/
def stAlpha : SchedState := { jobs := [jobAlpha], entries := [entAlpha] }

/-- A run of job 1 currently in `status=running`. -/
def runRunning : JobRun :=
  { id := 7, job_id := 1, status := .running, started_at := some 10,
    completed_at := none, output := none, error_message := none,
    duration_seconds := none }

/-- A cron oracle that always parses, firing at tick 300. -/
def oracle300 : String → Nat → Option Nat := fun _ _ => some 300

/-- Execution context in which the script path does not exist. -/
def ctxMissing : ExecCtx :=
  { fsExists := fun _ => false, procResult := .completed 0 "" "",
    hasSchedulerService := true, entryNextRun := none }

/-- Execution context in which the process exits 0 and the scheduler entry is
found with next fire time 500. -/
def ctxSuccess : ExecCtx :=
  { fsExists := fun _ => true, procResult := .completed 0 "out" "err",
    hasSchedulerService := true, entryNextRun := some (some 500) }

/-- Execution context in which the process exits nonzero. -/
def ctxNonzero : ExecCtx :=
  { fsExists := fun _ => true, procResult := .completed 2 "stdout-text" "boom",
    hasSchedulerService := true, entryNextRun := none }

/-- Execution context in which spawning/waiting raises (e.g. the 3600 s
timeout). -/
def ctxRaised : ExecCtx :=
  { fsExists := fun _ => true,
    procResult := .raised "Command timed out after 3600 seconds",
    hasSchedulerService := true, entryNextRun := none }

/-- A fresh state holding only `jobAlpha`, with no live entries. -/
def stFresh : SchedState := { jobs := [jobAlpha], entries := [] }

/-- A disabled job with a stale persisted `next_run_at`. -/
def jobDisabled : Job :=
  { id := 3, name := "gamma", script_path := "/app/jobs/c.py",
    cron_expression := "0 0 * * *", enabled := false,
    last_run_at := none, next_run_at := some 9, config := "cfgC" }

/-- `jobDisabled` after its `next_run_at` is cleared. -/
def jobDisabledCleared : Job := { jobDisabled with next_run_at := none }

/-- State holding only the disabled job. -/
def stDis : SchedState := { jobs := [jobDisabled], entries := [] }

/-- An enabled job whose cron expression does not parse. -/
def jobBadCron : Job :=
  { id := 2, name := "beta", script_path := "/app/jobs/b.py",
    cron_expression := "not a cron", enabled := true,
    last_run_at := none, next_run_at := some 7, config := "cfgB" }

/-- A startup batch: one good job, one with a bad expression, one disabled. -/
def stBatch : SchedState :=
  { jobs := [jobAlpha, jobBadCron, jobDisabled], entries := [] }

/-- A cron oracle that fails exactly on the bad expression. -/
def oracleBad : String → Nat → Option Nat :=
  fun s _ => if s = "not a cron" then none else some 42

/-- `jobAlpha` as persisted after the batch load under `oracleBad`. -/
def jobAlphaAt42 : Job := { jobAlpha with next_run_at := some 42 }

/-- Whether `subprocess.run` returned (any exit code) rather than raising. -/
def procCompleted : ProcResult → Bool
  | .completed _ _ _ => true
  | .raised _ => false

/-- Checks the create-then-terminal-update lifecycle of one `execute_job`
invocation: exactly two ledger writes — a create of a `running` row followed
by one update of the same row to a terminal status. -/
def runLifecycleOk (res : ExecResult) (runId : Nat) : Bool :=
  match res.runWrites with
  | [.create r0, .update r1] =>
    r0.status == .running && r1.status.isTerminal && r0.id == runId
      && r1.id == runId && r0.job_id == r1.job_id
  | _ => false

/-- A terminal (successful) run of job 1. -/
def runDone : JobRun :=
  { id := 8, job_id := 1, status := .success, started_at := some 1,
    completed_at := some 2, output := some "ok", error_message := none,
    duration_seconds := some 1 }

/-- The one-shot entry installed by `schedule_manual_job`. -/
def manualEntry (nowTs jid : Nat) (nm : String) : SchedEntry :=
  { entryId := .manual jid nowTs, name := "Manual run: " ++ nm,
    nextRunTime := some nowTs,
    boundArgs := [.app, .jobIdArg jid, .schedulerArg] }

/-- A sample parent process environment for the witness. -/
def parentEnv : String → Option String :=
  fun k => if k = "PATH" then some "/usr/bin" else none

/-! ## Helper lemmas -/

lemma hasEntry_removeEntry_self (es : List SchedEntry) (x : EntryId) :
    hasEntry (removeEntry es x) x = false := by
  simp [hasEntry, removeEntry, List.any_filter]

lemma hasEntry_removeEntry_ne (es : List SchedEntry) {x y : EntryId}
    (h : ¬ x = y) : hasEntry (removeEntry es x) y = hasEntry es y := by
  simp only [hasEntry, removeEntry, List.any_filter]
  congr 1
  funext a
  by_cases hay : a.entryId = y
  · have hax : ¬ a.entryId = x := by rw [hay]; intro hh; exact h hh.symm
    simp [hay, hax]
    exact fun hh => h hh.symm
  · simp [hay]

lemma hasEntry_append (es fs : List SchedEntry) (y : EntryId) :
    hasEntry (es ++ fs) y = (hasEntry es y || hasEntry fs y) := by
  simp [hasEntry, List.any_append]

/-- In a pair list whose first components are nodup, a key determines the
second component. -/
lemma snd_eq_of_fst_nodup {l : List (Nat × Bool)}
    (hnd : (l.map Prod.fst).Nodup) {a : Nat} {b c : Bool}
    (hb : (a, b) ∈ l) (hc : (a, c) ∈ l) : b = c := by
  induction l with
  | nil => cases hb
  | cons p l ih =>
    simp only [List.map_cons, List.nodup_cons] at hnd
    rcases List.mem_cons.mp hb with hb1 | hb2
    · rcases List.mem_cons.mp hc with hc1 | hc2
      · rw [← hb1] at hc1
        exact (Prod.mk.injEq _ _ _ _ ▸ hc1.symm).2
      · exfalso
        apply hnd.1
        have : a = p.1 := by rw [← hb1]
        rw [← this]
        exact List.mem_map.mpr ⟨(a, c), hc2, rfl⟩
    · rcases List.mem_cons.mp hc with hc1 | hc2
      · exfalso
        apply hnd.1
        have : a = p.1 := by rw [← hc1]
        rw [← this]
        exact List.mem_map.mpr ⟨(a, b), hb2, rfl⟩
      · exact ih hnd.2 hb2 hc2

/-- Unfolded form of the jobs table after `schedule_job`. -/
lemma schedule_job_jobs (c : String → Nat → Option Nat) (n : Nat)
    (s : SchedState) (job : Job) :
    (schedule_job c n s job).jobs =
      if job.enabled = false then
        updateJobRow s.jobs job.id (fun j => { j with next_run_at := none })
      else
        match c job.cron_expression n with
        | none => s.jobs
        | some t =>
          updateJobRow s.jobs job.id (fun j => { j with next_run_at := some t }) := by
  unfold schedule_job
  by_cases hen : job.enabled = false
  · simp [hen]
  · cases hc : c job.cron_expression n <;> simp [hen, hc]

/-- Unfolded form of the entry list after `schedule_job`. -/
lemma schedule_job_entries (c : String → Nat → Option Nat) (n : Nat)
    (s : SchedState) (job : Job) :
    (schedule_job c n s job).entries =
      match c job.cron_expression n, job.enabled with
      | some t, true =>
        removeEntry s.entries (.recurring job.id) ++
          [{ entryId := .recurring job.id, name := job.name,
             nextRunTime := some t,
             boundArgs := [.app, .jobIdArg job.id, .schedulerArg] }]
      | _, _ => removeEntry s.entries (.recurring job.id) := by
  unfold schedule_job
  by_cases hen : job.enabled = false
  · cases hc : c job.cron_expression n <;> simp [hen, hc]
  · have hen2 : job.enabled = true := by
      cases h : job.enabled
      · exact absurd h hen
      · rfl
    cases hc : c job.cron_expression n <;> simp [hen, hen2, hc]

/-- Membership in an updated jobs table comes from a source row. -/
lemma mem_updateJobRow {js : List Job} {i : Nat} {f : Job → Job} {j : Job}
    (hj : j ∈ updateJobRow js i f) :
    ∃ j0 ∈ js, j = if j0.id = i then f j0 else j0 := by
  unfold updateJobRow at hj
  obtain ⟨j0, hj0, hj0eq⟩ := List.mem_map.mp hj
  refine ⟨j0, hj0, ?_⟩
  by_cases h : j0.id = i
  · simp only [h, if_pos rfl, beq_self_eq_true] at hj0eq ⊢
    exact hj0eq.symm
  · have hb : (j0.id == i) = false := by simp [h]
    simp only [hb, if_neg h, Bool.false_eq_true, if_false] at hj0eq ⊢
    exact hj0eq.symm

lemma updateJobRow_idEnabled (js : List Job) (i : Nat) (v : Option Nat) :
    (updateJobRow js i (fun j => { j with next_run_at := v })).map
        (fun j => (j.id, j.enabled))
      = js.map (fun j => (j.id, j.enabled)) := by
  simp only [updateJobRow, List.map_map]
  apply List.map_congr_left
  intro j _
  by_cases h : j.id = i <;> simp [h]

/-- `schedule_job` changes only `next_run_at` and the entry list: the id and
enabled columns of the jobs table are untouched. -/
lemma schedule_job_idEnabled (c : String → Nat → Option Nat) (n : Nat)
    (st : SchedState) (job : Job) :
    (schedule_job c n st job).jobs.map (fun j => (j.id, j.enabled))
      = st.jobs.map (fun j => (j.id, j.enabled)) := by
  unfold schedule_job
  by_cases hen : job.enabled = false
  · simp [hen, updateJobRow_idEnabled]
  · cases hc : c job.cron_expression n <;>
      simp [hen, hc, updateJobRow_idEnabled]

/-- Scheduling a job preserves the id/enabled columns and the
disabled-implies-no-next-run invariant, provided the id of the scheduled job is
recorded as enabled (`E0` snapshots the id/enabled columns). -/
lemma schedule_job_step_inv (c : String → Nat → Option Nat) (n : Nat)
    (E0 : List (Nat × Bool)) (hndE : (E0.map Prod.fst).Nodup)
    (s : SchedState) (job : Job) (hjob : (job.id, true) ∈ E0)
    (hs : s.jobs.map (fun j => (j.id, j.enabled)) = E0)
    (hinv : ∀ j ∈ s.jobs, j.enabled = false → j.next_run_at = none) :
    (schedule_job c n s job).jobs.map (fun j => (j.id, j.enabled)) = E0
    ∧ ∀ j ∈ (schedule_job c n s job).jobs,
        j.enabled = false → j.next_run_at = none := by
  refine ⟨by rw [schedule_job_idEnabled, hs], ?_⟩
  intro j hj hjd
  rw [schedule_job_jobs] at hj
  by_cases hen : job.enabled = false
  · rw [if_pos hen] at hj
    obtain ⟨j0, hj0, heq⟩ := mem_updateJobRow hj
    by_cases hid : j0.id = job.id
    · rw [if_pos hid] at heq
      rw [heq]
    · rw [if_neg hid] at heq
      rw [heq]
      rw [heq] at hjd
      exact hinv j0 hj0 hjd
  · rw [if_neg hen] at hj
    cases hc : c job.cron_expression n with
    | none => rw [hc] at hj; exact hinv j hj hjd
    | some t =>
      rw [hc] at hj
      obtain ⟨j0, hj0, heq⟩ := mem_updateJobRow hj
      by_cases hid : j0.id = job.id
      · exfalso
        have hmem : (j0.id, j0.enabled) ∈ E0 := by
          rw [← hs]; exact List.mem_map.mpr ⟨j0, hj0, rfl⟩
        rw [hid] at hmem
        have hen0 : j0.enabled = true := snd_eq_of_fst_nodup hndE hmem hjob
        rw [if_pos hid] at heq
        rw [heq] at hjd
        simp only at hjd
        rw [hen0] at hjd
        exact Bool.true_eq_false.mp hjd
      · rw [if_neg hid] at heq
        rw [heq] at hjd ⊢
        exact hinv j0 hj0 hjd

/-- Folding `schedule_job` over a batch of jobs recorded as enabled preserves
the disabled-implies-no-next-run invariant. -/
lemma foldl_schedule_job_inv (c : String → Nat → Option Nat) (n : Nat)
    (E0 : List (Nat × Bool)) (hndE : (E0.map Prod.fst).Nodup) :
    ∀ (L : List Job) (s : SchedState),
      (∀ k ∈ L, (k.id, true) ∈ E0) →
      s.jobs.map (fun j => (j.id, j.enabled)) = E0 →
      (∀ j ∈ s.jobs, j.enabled = false → j.next_run_at = none) →
      (L.foldl (schedule_job c n) s).jobs.map (fun j => (j.id, j.enabled)) = E0
      ∧ ∀ j ∈ (L.foldl (schedule_job c n) s).jobs,
          j.enabled = false → j.next_run_at = none := by
  intro L
  induction L with
  | nil => intro s _ hs hinv; exact ⟨hs, hinv⟩
  | cons k L ih =>
    intro s hL hs hinv
    have hk := hL k (List.mem_cons_self k L)
    obtain ⟨hs2, hinv2⟩ := schedule_job_step_inv c n E0 hndE s k hk hs hinv
    exact ih (schedule_job c n s k) (fun x hx => hL x (List.mem_cons_of_mem k hx))
      hs2 hinv2

/-- `load_existing_jobs` leaves every disabled job with `next_run_at = none`,
for any jobs table with distinct primary keys. -/
lemma load_existing_jobs_clears_disabled (c : String → Nat → Option Nat)
    (n : Nat) (st : SchedState)
    (hnd : (st.jobs.map (fun j => j.id)).Nodup) :
    ∀ j ∈ (load_existing_jobs c n st).jobs,
      j.enabled = false → j.next_run_at = none := by
  classical
  set g : Job → Job :=
    fun j => if j.enabled then j else { j with next_run_at := none } with hg
  set E0 : List (Nat × Bool) := st.jobs.map (fun j => (j.id, j.enabled)) with hE0
  have hndE : (E0.map Prod.fst).Nodup := by
    rw [hE0, List.map_map]
    simpa using hnd
  have hcl : (st.jobs.map g).map (fun j => (j.id, j.enabled)) = E0 := by
    rw [hE0, List.map_map]
    apply List.map_congr_left
    intro j _
    by_cases h : j.enabled <;> simp [hg, h]
  have hbase : ∀ j ∈ st.jobs.map g, j.enabled = false → j.next_run_at = none := by
    intro j hj hjd
    simp only [List.mem_map] at hj
    obtain ⟨j0, hj0, hj0eq⟩ := hj
    by_cases h : j0.enabled
    · rw [← hj0eq] at hjd; simp [hg, h] at hjd
    · rw [← hj0eq]; simp [hg, h]
  have hL : ∀ k ∈ (st.jobs.map g).filter (fun j => j.enabled),
      (k.id, true) ∈ E0 := by
    intro k hk
    have hken : k.enabled = true := by
      have := List.of_mem_filter hk
      simpa using this
    have hkc : k ∈ st.jobs.map g := List.mem_of_mem_filter hk
    have : (k.id, k.enabled) ∈ E0 := by
      rw [← hcl]; exact List.mem_map.mpr ⟨k, hkc, rfl⟩
    rwa [hken] at this
  have := foldl_schedule_job_inv c n E0 hndE
    ((st.jobs.map g).filter (fun j => j.enabled))
    { st with jobs := st.jobs.map g } hL hcl hbase
  exact this.2

/-! ## Claim C1 -/

/-- Claim C1: every entry installed by `schedule_job` or
`schedule_manual_job` binds the argument list
`[self.app, job.id, self.scheduler]` — three positional arguments — while
`ExecutionService.execute_job(app, job_id)` has two parameters, so a firing
raises a TypeError at the call boundary instead of running `execute_job`.
Evaluated at the concrete job `jobAlpha`. -/
theorem scheduled_entry_binding_mismatch :
    ((schedule_job oracle300 0 stFresh jobAlpha).entries.map
        (fun e => e.boundArgs.length) = [3])
    ∧ ((schedule_manual_job stFresh 5 1 "alpha").1.entries.map
        (fun e => e.boundArgs.length) = [3])
    ∧ executeJobParams.length = 2
    ∧ ((schedule_job oracle300 0 stFresh jobAlpha).entries.map fireCallOk
        = [false])
    ∧ ((schedule_manual_job stFresh 5 1 "alpha").1.entries.map fireCallOk
        = [false]) :=
  ⟨rfl, rfl, rfl, rfl, rfl⟩

/-! ## Claim C2 -/

/-- Claim C2: invoking `kill_specific_job` on job 1 while `runRunning` is in
`status=running` does not transition the run: the loop body raises
`NameError` (the module never imports `datetime`, nor `db`) before
`completed_at` is assigned and before any commit, the per-row `except`
records the failure, and the run remains in `status=running` — contrary to
the claim that no run of the job remains running afterwards. -/
theorem kill_specific_job_leaves_run_running :
    (kill_specific_job_ledger debugModuleScope 20 1 [runRunning]).1
      = [runRunning]
    ∧ (kill_specific_job_ledger debugModuleScope 20 1 [runRunning]).2
      = ["NameError: name datetime is not defined"]
    ∧ runRunning.status = .running :=
  ⟨rfl, rfl, rfl⟩

/-! ## Claim C3 -/

/-- Claim C3, counterexample: `unschedule_job` removes the live entry but
leaves `next_run_at = some 100` on the job row, so the operation does not
clear `next_run_at` and the invariant (non-null only while a live entry
exists) is violated in the resulting state. -/
theorem unschedule_job_keeps_next_run_at :
    hasEntry (unschedule_job stAlpha 1).entries (.recurring 1) = false
    ∧ (unschedule_job stAlpha 1).jobs.map (fun j => j.next_run_at)
      = [some 100]
    ∧ (unschedule_job stAlpha 1).jobs = stAlpha.jobs :=
  ⟨rfl, rfl, rfl⟩

/-- Claim C3 (amended): `schedule_job` on a disabled job removes any live
entry and clears `next_run_at`; `load_existing_jobs` leaves every disabled
job with `next_run_at = none`; but `unschedule_job` only removes the
scheduler entry and leaves the jobs table — including `next_run_at` —
untouched. -/
theorem next_run_cleared_on_disable_and_load :
    (∀ (c : String → Nat → Option Nat) (n : Nat) (st : SchedState)
        (job : Job), job.enabled = false →
      hasEntry (schedule_job c n st job).entries (.recurring job.id) = false
      ∧ ∀ j ∈ (schedule_job c n st job).jobs,
          j.id = job.id → j.next_run_at = none)
    ∧ (∀ (c : String → Nat → Option Nat) (n : Nat) (st : SchedState),
        (st.jobs.map (fun j => j.id)).Nodup →
        ∀ j ∈ (load_existing_jobs c n st).jobs,
          j.enabled = false → j.next_run_at = none)
    ∧ (∀ (st : SchedState) (jobId : Nat),
        hasEntry (unschedule_job st jobId).entries (.recurring jobId) = false
        ∧ (unschedule_job st jobId).jobs = st.jobs) := by
  refine ⟨?_, ?_, ?_⟩
  · intro c n st job hen
    constructor
    · unfold schedule_job
      simp only [hen, if_pos rfl]
      exact hasEntry_removeEntry_self st.entries (.recurring job.id)
    · intro j hj hid
      rw [schedule_job_jobs, if_pos hen] at hj
      obtain ⟨j0, _, heq⟩ := mem_updateJobRow hj
      by_cases h : j0.id = job.id
      · rw [if_pos h] at heq
        rw [heq]
      · exfalso
        rw [if_neg h] at heq
        rw [heq] at hid
        exact h hid
  · exact load_existing_jobs_clears_disabled
  · intro st jobId
    exact ⟨hasEntry_removeEntry_self st.entries (.recurring jobId), rfl⟩

/-- Witness for the amended C3 theorem at concrete inputs. -/
theorem next_run_cleared_on_disable_and_load_witness :
    hasEntry (schedule_job oracle300 0 stDis jobDisabled).entries
        (.recurring jobDisabled.id) = false
    ∧ jobDisabledCleared.next_run_at = none
    ∧ (unschedule_job stAlpha 1).jobs = stAlpha.jobs := by
  refine ⟨(next_run_cleared_on_disable_and_load.1 oracle300 0 stDis
      jobDisabled rfl).1, ?_, (next_run_cleared_on_disable_and_load.2.2
      stAlpha 1).2⟩
  exact next_run_cleared_on_disable_and_load.2.1 oracle300 0 stDis
    (by decide) jobDisabledCleared (by decide) rfl

/-! ## Claim C4 -/

/-- Claim C4, counterexample: executing job 1 with a missing script creates a
run and persists `completed_at`/`duration`, but leaves the job row — in
particular `last_run_at` — completely unchanged (`last_run_at` stays `none`
rather than becoming the start time 11): the `job.last_run_at = start_time`
statement sits inside the `try` and is skipped on the exception path. -/
theorem execute_job_missing_script_skips_last_run_at :
    (execute_job ctxMissing 9 10 11 12 [jobAlpha] 1).jobRow = some jobAlpha
    ∧ jobAlpha.last_run_at = none
    ∧ (execute_job ctxMissing 9 10 11 12 [jobAlpha] 1).finalRun.map
        (fun r => (r.status, r.completed_at, r.duration_seconds))
      = some (.failed, some 12, some 1) :=
  ⟨rfl, rfl, rfl⟩

/-- Claim C4 (amended): every run-creating invocation of `execute_job`
persists `completed_at = end_time` and the computed duration on every
outcome path; `Job.last_run_at` is set to the start time exactly on the
paths where the subprocess ran to completion (exit 0 or nonzero), while on
exception paths (missing script, timeout, spawn failure) the job row is left
unchanged; and when no scheduler entry is found, `next_run_at` keeps its
previous value. -/
theorem execute_job_persists_terminal_fields :
    ∀ (ctx : ExecCtx) (runId tc ts te : Nat) (jobs : List Job) (jid : Nat)
      (job : Job),
      findJob jobs jid = some job →
      ((execute_job ctx runId tc ts te jobs jid).finalRun.map
          (fun r => r.completed_at) = some (some te))
      ∧ ((execute_job ctx runId tc ts te jobs jid).finalRun.map
          (fun r => r.duration_seconds) = some (some (te - ts)))
      ∧ (ctx.fsExists job.script_path = true →
          procCompleted ctx.procResult = true →
          (execute_job ctx runId tc ts te jobs jid).jobRow.map
            (fun j => j.last_run_at) = some (some ts))
      ∧ (ctx.fsExists job.script_path = false →
          (execute_job ctx runId tc ts te jobs jid).jobRow = some job)
      ∧ (procCompleted ctx.procResult = false →
          (execute_job ctx runId tc ts te jobs jid).jobRow = some job)
      ∧ (job.enabled = true → ctx.entryNextRun = none →
          (execute_job ctx runId tc ts te jobs jid).jobRow.map
            (fun j => j.next_run_at) = some job.next_run_at) := by
  intro ctx runId tc ts te jobs jid job hfind
  refine ⟨?_, ?_, ?_, ?_, ?_, ?_⟩
  · cases hfs : ctx.fsExists job.script_path with
    | false => simp [execute_job, hfind, hfs]
    | true =>
      cases hpr : ctx.procResult with
      | raised m => simp [execute_job, hfind, hfs, hpr]
      | completed code out err =>
        by_cases hc : (code == 0) = true <;>
          simp [execute_job, hfind, hfs, hpr, hc]
  · cases hfs : ctx.fsExists job.script_path with
    | false => simp [execute_job, hfind, hfs]
    | true =>
      cases hpr : ctx.procResult with
      | raised m => simp [execute_job, hfind, hfs, hpr]
      | completed code out err =>
        by_cases hc : (code == 0) = true <;>
          simp [execute_job, hfind, hfs, hpr, hc]
  · intro h1 h2
    cases hpr : ctx.procResult with
    | raised m => rw [hpr] at h2; simp [procCompleted] at h2
    | completed code out err =>
      by_cases hss : (ctx.hasSchedulerService && job.enabled) = true
      · cases hnr : ctx.entryNextRun with
        | none => simp [execute_job, hfind, h1, hpr, hss, hnr]
        | some v => cases v <;> simp [execute_job, hfind, h1, hpr, hss, hnr]
      · simp [execute_job, hfind, h1, hpr, hss]
  · intro h1
    simp [execute_job, hfind, h1]
  · intro h2
    cases hfs : ctx.fsExists job.script_path with
    | false => simp [execute_job, hfind, hfs]
    | true =>
      cases hpr : ctx.procResult with
      | raised m => simp [execute_job, hfind, hfs, hpr]
      | completed code out err => rw [hpr] at h2; simp [procCompleted] at h2
  · intro _ hnr
    cases hfs : ctx.fsExists job.script_path with
    | false => simp [execute_job, hfind, hfs]
    | true =>
      cases hpr : ctx.procResult with
      | raised m => simp [execute_job, hfind, hfs, hpr]
      | completed code out err =>
        by_cases hss : (ctx.hasSchedulerService && job.enabled) = true
        · simp [execute_job, hfind, hfs, hpr, hss, hnr]
        · simp [execute_job, hfind, hfs, hpr, hss]

/-- Witness for the amended C4 theorem: the success context `ctxSuccess`
with `jobAlpha` (subprocess completed), and the facts it yields. -/
theorem execute_job_persists_terminal_fields_witness :
    ((execute_job ctxSuccess 9 10 11 12 [jobAlpha] 1).finalRun.map
        (fun r => r.completed_at) = some (some 12))
    ∧ ((execute_job ctxSuccess 9 10 11 12 [jobAlpha] 1).jobRow.map
        (fun j => j.last_run_at) = some (some 11)) :=
  have h := execute_job_persists_terminal_fields ctxSuccess 9 10 11 12
    [jobAlpha] 1 jobAlpha rfl
  ⟨h.1, h.2.2.1 rfl rfl⟩

/-! ## Claim C5 -/

/-- Claim C5: exit code 0 yields `status=success` with stdout as output;
a nonzero exit yields `status=failed` with stderr as the error message;
an exception while spawning or waiting (script not found, timeout, spawn
failure) yields `status=failed` with the message of the exception. -/
theorem execute_job_outcome_mapping :
    ∀ (ctx : ExecCtx) (runId tc ts te : Nat) (jobs : List Job) (jid : Nat)
      (job : Job),
      findJob jobs jid = some job →
      (∀ out err, ctx.fsExists job.script_path = true →
        ctx.procResult = .completed 0 out err →
        ((execute_job ctx runId tc ts te jobs jid).finalRun.map
            (fun r => r.status) = some .success)
        ∧ ((execute_job ctx runId tc ts te jobs jid).finalRun.map
            (fun r => r.output) = some (some out)))
      ∧ (∀ (code : Int) (out err : String),
        ctx.fsExists job.script_path = true →
        ctx.procResult = .completed code out err → ¬ code = 0 →
        ((execute_job ctx runId tc ts te jobs jid).finalRun.map
            (fun r => r.status) = some .failed)
        ∧ ((execute_job ctx runId tc ts te jobs jid).finalRun.map
            (fun r => r.error_message) = some (some err)))
      ∧ (∀ msg, ctx.fsExists job.script_path = true →
        ctx.procResult = .raised msg →
        ((execute_job ctx runId tc ts te jobs jid).finalRun.map
            (fun r => r.status) = some .failed)
        ∧ ((execute_job ctx runId tc ts te jobs jid).finalRun.map
            (fun r => r.error_message) = some (some msg)))
      ∧ (ctx.fsExists job.script_path = false →
        ((execute_job ctx runId tc ts te jobs jid).finalRun.map
            (fun r => r.status) = some .failed)
        ∧ ((execute_job ctx runId tc ts te jobs jid).finalRun.map
            (fun r => r.error_message)
          = some (some ("Script not found: " ++ job.script_path)))) := by
  intro ctx runId tc ts te jobs jid job hfind
  refine ⟨?_, ?_, ?_, ?_⟩
  · intro out err hfs hpr
    constructor <;> simp [execute_job, hfind, hfs, hpr]
  · intro code out err hfs hpr hcode
    have hc : (code == 0) = false := by
      simp [hcode]
    constructor <;> simp [execute_job, hfind, hfs, hpr, hc]
  · intro msg hfs hpr
    constructor <;> simp [execute_job, hfind, hfs, hpr]
  · intro hfs
    constructor <;> simp [execute_job, hfind, hfs]

/-- Witness for C5 at concrete inputs: exit 0 (`ctxSuccess`), exit 2
(`ctxNonzero`) and a raised timeout (`ctxRaised`) on `jobAlpha`. -/
theorem execute_job_outcome_mapping_witness :
    ((execute_job ctxSuccess 9 10 11 12 [jobAlpha] 1).finalRun.map
        (fun r => r.status) = some .success)
    ∧ ((execute_job ctxSuccess 9 10 11 12 [jobAlpha] 1).finalRun.map
        (fun r => r.output) = some (some "out"))
    ∧ ((execute_job ctxNonzero 9 10 11 12 [jobAlpha] 1).finalRun.map
        (fun r => r.status) = some .failed)
    ∧ ((execute_job ctxNonzero 9 10 11 12 [jobAlpha] 1).finalRun.map
        (fun r => r.error_message) = some (some "boom"))
    ∧ ((execute_job ctxRaised 9 10 11 12 [jobAlpha] 1).finalRun.map
        (fun r => r.error_message)
      = some (some "Command timed out after 3600 seconds"))
    ∧ ((execute_job ctxMissing 9 10 11 12 [jobAlpha] 1).finalRun.map
        (fun r => r.error_message)
      = some (some "Script not found: /app/jobs/a.py")) :=
  have h0 := execute_job_outcome_mapping ctxSuccess 9 10 11 12 [jobAlpha] 1
    jobAlpha rfl
  have h2 := execute_job_outcome_mapping ctxNonzero 9 10 11 12 [jobAlpha] 1
    jobAlpha rfl
  have hr := execute_job_outcome_mapping ctxRaised 9 10 11 12 [jobAlpha] 1
    jobAlpha rfl
  have hm := execute_job_outcome_mapping ctxMissing 9 10 11 12 [jobAlpha] 1
    jobAlpha rfl
  ⟨(h0.1 "out" "err" rfl rfl).1, (h0.1 "out" "err" rfl rfl).2,
   (h2.2.1 2 "stdout-text" "boom" rfl rfl (by decide)).1,
   (h2.2.1 2 "stdout-text" "boom" rfl rfl (by decide)).2,
   (hr.2.2.1 "Command timed out after 3600 seconds" rfl rfl).2,
   (hm.2.2.2 rfl).2⟩

/-! ## Claim C6 -/

/-- Claim C6: a terminal run is never mutated again — the kill endpoints
select only `status=running` rows and leave every other row untouched —
and each run-creating `execute_job` invocation performs exactly one create
of a running row followed by exactly one terminal update of that same row
(and no ledger write at all when the job id does not exist). -/
theorem terminal_status_never_reverts :
    (∀ (scope : List String) (now : Nat) (filt : Option Nat) (r : JobRun),
        r.status.isTerminal = true →
        killRunRow scope now filt r = { persisted := r, failure := none })
    ∧ (∀ (scope : List String) (now jobId : Nat) (runs : List JobRun),
        (kill_specific_job_ledger scope now jobId runs).1
          = runs.map (fun r => (killRunRow scope now (some jobId) r).persisted))
    ∧ (∀ (scope : List String) (now : Nat) (runs : List JobRun),
        (kill_running_jobs_ledger scope now runs).1
          = runs.map (fun r => (killRunRow scope now none r).persisted))
    ∧ (∀ (ctx : ExecCtx) (runId tc ts te : Nat) (jobs : List Job)
        (jid : Nat) (job : Job), findJob jobs jid = some job →
        runLifecycleOk (execute_job ctx runId tc ts te jobs jid) runId = true)
    ∧ (∀ (ctx : ExecCtx) (runId tc ts te : Nat) (jobs : List Job)
        (jid : Nat), findJob jobs jid = none →
        (execute_job ctx runId tc ts te jobs jid).runWrites = []) := by
  refine ⟨?_, ?_, ?_, ?_, ?_⟩
  · intro scope now filt r hterm
    cases hst : r.status with
    | pending => rw [hst] at hterm; simp [RunStatus.isTerminal] at hterm
    | running => rw [hst] at hterm; simp [RunStatus.isTerminal] at hterm
    | success => simp [killRunRow, hst]
    | failed => simp [killRunRow, hst]
  · intro scope now jobId runs
    simp [kill_specific_job_ledger, List.map_map, Function.comp]
  · intro scope now runs
    simp [kill_running_jobs_ledger, List.map_map, Function.comp]
  · intro ctx runId tc ts te jobs jid job hfind
    cases hfs : ctx.fsExists job.script_path with
    | false =>
      simp [execute_job, hfind, hfs, runLifecycleOk, RunStatus.isTerminal]
    | true =>
      cases hpr : ctx.procResult with
      | raised m =>
        simp [execute_job, hfind, hfs, hpr, runLifecycleOk,
          RunStatus.isTerminal]
      | completed code out err =>
        by_cases hc : (code == 0) = true <;>
          simp [execute_job, hfind, hfs, hpr, hc, runLifecycleOk,
            RunStatus.isTerminal]
  · intro ctx runId tc ts te jobs jid hfind
    simp [execute_job, hfind]

/-- Witness for C6: the terminal run `runDone` is left untouched by the
kill selection, and a concrete successful execution has the
create-then-terminal-update lifecycle. -/
theorem terminal_status_never_reverts_witness :
    killRunRow debugModuleScope 20 (some 1) runDone
      = { persisted := runDone, failure := none }
    ∧ runLifecycleOk (execute_job ctxSuccess 9 10 11 12 [jobAlpha] 1) 9
      = true :=
  ⟨terminal_status_never_reverts.1 debugModuleScope 20 (some 1) runDone rfl,
   terminal_status_never_reverts.2.2.2.1 ctxSuccess 9 10 11 12 [jobAlpha] 1
     jobAlpha rfl⟩

/-! ## Claim C7 -/

/-- Scheduling a job whose id differs from `i` neither removes the live
recurring entry for `i` nor touches any row with id `i`. -/
lemma schedule_job_preserves_foreign (c : String → Nat → Option Nat) (n : Nat)
    (s : SchedState) (k : Job) {i : Nat} (hne : ¬ k.id = i) {t : Nat}
    (hent : hasEntry s.entries (.recurring i) = true)
    (hrow : ∀ j ∈ s.jobs, j.id = i → j.next_run_at = some t) :
    hasEntry (schedule_job c n s k).entries (.recurring i) = true
    ∧ ∀ j ∈ (schedule_job c n s k).jobs, j.id = i → j.next_run_at = some t := by
  have hneid : ¬ (EntryId.recurring k.id = EntryId.recurring i) := by
    intro h
    exact hne (EntryId.recurring.injEq _ _ ▸ h)
  constructor
  · rw [schedule_job_entries]
    cases hc : c k.cron_expression n with
    | none =>
      cases hk : k.enabled <;>
        simp only [hasEntry_removeEntry_ne s.entries hneid, hent]
    | some v =>
      cases hk : k.enabled
      · simp only [hasEntry_removeEntry_ne s.entries hneid, hent]
      · rw [hasEntry_append, hasEntry_removeEntry_ne s.entries hneid, hent]
        rfl
  · intro j hj hid
    rw [schedule_job_jobs] at hj
    by_cases hen : k.enabled = false
    · rw [if_pos hen] at hj
      obtain ⟨j0, hj0, heq⟩ := mem_updateJobRow hj
      by_cases h : j0.id = k.id
      · exfalso
        rw [if_pos h] at heq
        rw [heq] at hid
        exact hne (hid ▸ h ▸ rfl)
      · rw [if_neg h] at heq
        rw [heq] at hid ⊢
        exact hrow j0 hj0 hid
    · rw [if_neg hen] at hj
      cases hc : c k.cron_expression n with
      | none => rw [hc] at hj; exact hrow j hj hid
      | some v =>
        rw [hc] at hj
        obtain ⟨j0, hj0, heq⟩ := mem_updateJobRow hj
        by_cases h : j0.id = k.id
        · exfalso
          rw [if_pos h] at heq
          rw [heq] at hid
          exact hne (hid ▸ h ▸ rfl)
        · rw [if_neg h] at heq
          rw [heq] at hid ⊢
          exact hrow j0 hj0 hid

/-- After a fold over jobs whose ids all differ from `i`, a live entry for
`i` and the recorded `next_run_at` of rows with id `i` survive. -/
lemma foldl_schedule_job_preserves (c : String → Nat → Option Nat) (n : Nat)
    {i t : Nat} :
    ∀ (L : List Job) (s : SchedState),
      (∀ k ∈ L, ¬ k.id = i) →
      hasEntry s.entries (.recurring i) = true →
      (∀ j ∈ s.jobs, j.id = i → j.next_run_at = some t) →
      hasEntry (L.foldl (schedule_job c n) s).entries (.recurring i) = true
      ∧ ∀ j ∈ (L.foldl (schedule_job c n) s).jobs,
          j.id = i → j.next_run_at = some t := by
  intro L
  induction L with
  | nil => intro s _ hent hrow; exact ⟨hent, hrow⟩
  | cons k L ih =>
    intro s hL hent hrow
    obtain ⟨hent2, hrow2⟩ := schedule_job_preserves_foreign c n s k
      (hL k (List.mem_cons_self k L)) hent hrow
    exact ih (schedule_job c n s k)
      (fun x hx => hL x (List.mem_cons_of_mem k hx)) hent2 hrow2

/-- Scheduling an enabled job with a parseable cron expression installs its
recurring entry and records the fire time on every row with its id. -/
lemma schedule_job_establish (c : String → Nat → Option Nat) (n : Nat)
    (s : SchedState) (job : Job) (t : Nat) (hen : job.enabled = true)
    (hc : c job.cron_expression n = some t) :
    hasEntry (schedule_job c n s job).entries (.recurring job.id) = true
    ∧ ∀ j ∈ (schedule_job c n s job).jobs,
        j.id = job.id → j.next_run_at = some t := by
  constructor
  · rw [schedule_job_entries, hc, hen, hasEntry_append]
    simp [hasEntry]
  · intro j hj hid
    rw [schedule_job_jobs] at hj
    have hne : ¬ job.enabled = false := by rw [hen]; simp
    rw [if_neg hne, hc] at hj
    obtain ⟨j0, hj0, heq⟩ := mem_updateJobRow hj
    by_cases h : j0.id = job.id
    · rw [if_pos h] at heq
      rw [heq]
    · exfalso
      rw [if_neg h] at heq
      rw [heq] at hid
      exact h hid

/-- Claim C7: a cron parse failure is delivered to `schedule_job` callers as
no effect beyond the entry removal (no exception — the embedding is total,
and the jobs table of the failed job is untouched with no entry installed); and
in `load_existing_jobs` every enabled job whose expression parses ends up
scheduled with its fire time recorded, regardless of failures on any other
job in the batch. -/
theorem schedule_failure_isolated :
    (∀ (c : String → Nat → Option Nat) (n : Nat) (s : SchedState)
        (jb : Job), jb.enabled = true → c jb.cron_expression n = none →
      (schedule_job c n s jb).jobs = s.jobs
      ∧ hasEntry (schedule_job c n s jb).entries (.recurring jb.id) = false)
    ∧ (∀ (c : String → Nat → Option Nat) (n : Nat) (st : SchedState)
        (job : Job) (t : Nat),
        (st.jobs.map (fun j => j.id)).Nodup →
        job ∈ st.jobs → job.enabled = true →
        c job.cron_expression n = some t →
        hasEntry (load_existing_jobs c n st).entries (.recurring job.id)
          = true
        ∧ ∀ j ∈ (load_existing_jobs c n st).jobs,
            j.id = job.id → j.next_run_at = some t) := by
  constructor
  · intro c n s jb hen hc
    have hne : ¬ jb.enabled = false := by rw [hen]; simp
    constructor
    · rw [schedule_job_jobs, if_neg hne, hc]
    · rw [schedule_job_entries, hc]
      cases jb.enabled <;>
        exact hasEntry_removeEntry_self s.entries (.recurring jb.id)
  · intro c n st job t hnd hmem hen hc
    classical
    set g : Job → Job :=
      fun j => if j.enabled then j else { j with next_run_at := none }
      with hg
    set L : List Job := (st.jobs.map g).filter (fun j => j.enabled) with hL
    have hload : load_existing_jobs c n st
        = L.foldl (schedule_job c n) { st with jobs := st.jobs.map g } := by
      simp only [load_existing_jobs, hL, hg]
    have hjobL : job ∈ L := by
      rw [hL]
      apply List.mem_filter.mpr
      refine ⟨List.mem_map.mpr ⟨job, hmem, ?_⟩, hen⟩
      rw [hg]
      simp [hen]
    have hndL : (L.map (fun j => j.id)).Nodup := by
      have hids : (st.jobs.map g).map (fun j => j.id)
          = st.jobs.map (fun j => j.id) := by
        rw [List.map_map]
        apply List.map_congr_left
        intro j _
        rw [hg]
        by_cases h : j.enabled <;> simp [h]
      have hsub : L.Sublist (st.jobs.map g) := by
        rw [hL]; exact List.filter_sublist _
      have := (hsub.map (fun j => j.id)).nodup (by rw [hids]; exact hnd)
      exact this
    obtain ⟨s1, s2, hsplit⟩ := List.append_of_mem hjobL
    have hs2 : ∀ k ∈ s2, ¬ k.id = job.id := by
      intro k hk hkid
      have : (L.map (fun j => j.id)).Nodup := hndL
      rw [hsplit] at this
      simp only [List.map_append, List.map_cons] at this
      have h2 := (List.nodup_append.mp this).2.1
      have h3 := (List.nodup_cons.mp h2).1
      apply h3
      rw [← hkid]
      exact List.mem_map.mpr ⟨k, hk, rfl⟩
    rw [hload, hsplit, List.foldl_append, List.foldl_cons]
    obtain ⟨hent, hrow⟩ := schedule_job_establish c n
      (s1.foldl (schedule_job c n) { st with jobs := st.jobs.map g })
      job t hen hc
    exact foldl_schedule_job_preserves c n s2 _ hs2 hent hrow

/-- Witness for C7: a batch holding `jobAlpha` (valid cron), a job with an
unparseable expression, and the disabled `jobDisabled`; under an oracle
failing exactly on the bad expression, `jobAlpha` is still scheduled with
fire time 42. -/
theorem schedule_failure_isolated_witness :
    hasEntry (load_existing_jobs oracleBad 0 stBatch).entries
      (.recurring 1) = true
    ∧ jobAlphaAt42.next_run_at = some 42 :=
  have h := schedule_failure_isolated.2 oracleBad 0 stBatch jobAlpha 42
    (by decide) (by decide) rfl (by decide)
  ⟨h.1, h.2 jobAlphaAt42 (by decide) rfl⟩

/-! ## Claim C8 -/

lemma hasEntry_eq_true_iff (es : List SchedEntry) (y : EntryId) :
    hasEntry es y = true ↔ y ∈ es.map (fun e => e.entryId) := by
  simp only [hasEntry, List.any_eq_true, List.mem_map, beq_iff_eq]

/-- Unfolded behavior of `schedule_manual_job`: the returned flag is the
negation of an id conflict, and the entry list either stays or gets the
one-shot entry appended. -/
lemma schedule_manual_job_spec (st : SchedState) (nowTs jid : Nat)
    (nm : String) :
    (schedule_manual_job st nowTs jid nm).2
      = !hasEntry st.entries (.manual jid nowTs)
    ∧ (schedule_manual_job st nowTs jid nm).1.entries
      = (if hasEntry st.entries (.manual jid nowTs) then st.entries
         else st.entries ++ [manualEntry nowTs jid nm]) := by
  unfold schedule_manual_job addJobNoReplace manualEntry
  by_cases h : hasEntry st.entries (.manual jid nowTs) = true <;> simp [h]

/-- `schedule_manual_job` never installs a duplicate id: the distinctness of
live entry ids is preserved. -/
lemma schedule_manual_job_nodup (st : SchedState) (nowTs jid : Nat)
    (nm : String)
    (h : (st.entries.map (fun e => e.entryId)).Nodup) :
    ((schedule_manual_job st nowTs jid nm).1.entries.map
      (fun e => e.entryId)).Nodup := by
  rw [(schedule_manual_job_spec st nowTs jid nm).2]
  by_cases hh : hasEntry st.entries (.manual jid nowTs) = true
  · rw [if_pos hh]; exact h
  · rw [if_neg hh, List.map_append, List.nodup_append]
    refine ⟨h, List.nodup_singleton _, ?_⟩
    have : (manualEntry nowTs jid nm).entryId = EntryId.manual jid nowTs := rfl
    simp only [List.map_cons, List.map_nil, this]
    rw [List.disjoint_singleton]
    intro hmem
    exact hh ((hasEntry_eq_true_iff st.entries (.manual jid nowTs)).mpr hmem)

/-- Claim C8: two `scheduleOnce` calls for the same job id install one-shot
entries with distinct ids (the id embeds the fire timestamp; a same-instant
collision is rejected by the scheduler rather than installed twice, so live
ids stay distinct either way); the returned flag is `true` exactly when the
install succeeded, and the embedding is a total function — the `try/except`
converts every failure into `false` instead of an exception. -/
theorem schedule_manual_job_distinct_entries :
    ∀ (st : SchedState) (t1 t2 jid : Nat) (n1 n2 : String),
      ((st.entries.map (fun e => e.entryId)).Nodup →
        ((schedule_manual_job ((schedule_manual_job st t1 jid n1).1) t2 jid
            n2).1.entries.map (fun e => e.entryId)).Nodup)
      ∧ ((schedule_manual_job st t1 jid n1).2
          = !hasEntry st.entries (.manual jid t1))
      ∧ (¬ t1 = t2 →
          hasEntry st.entries (.manual jid t1) = false →
          hasEntry st.entries (.manual jid t2) = false →
          (schedule_manual_job st t1 jid n1).2 = true
          ∧ (schedule_manual_job ((schedule_manual_job st t1 jid n1).1) t2
              jid n2).2 = true
          ∧ hasEntry (schedule_manual_job ((schedule_manual_job st t1 jid
              n1).1) t2 jid n2).1.entries (.manual jid t1) = true
          ∧ hasEntry (schedule_manual_job ((schedule_manual_job st t1 jid
              n1).1) t2 jid n2).1.entries (.manual jid t2) = true
          ∧ ¬ (EntryId.manual jid t1 = EntryId.manual jid t2)) := by
  intro st t1 t2 jid n1 n2
  refine ⟨?_, (schedule_manual_job_spec st t1 jid n1).1, ?_⟩
  · intro h
    exact schedule_manual_job_nodup _ t2 jid n2
      (schedule_manual_job_nodup st t1 jid n1 h)
  · intro hne hm1 hm2
    have hid : ¬ (EntryId.manual jid t1 = EntryId.manual jid t2) := by
      intro h
      exact hne (EntryId.manual.injEq _ _ _ _ ▸ h).2
    have hb1 : (schedule_manual_job st t1 jid n1).2 = true := by
      rw [(schedule_manual_job_spec st t1 jid n1).1, hm1]
      rfl
    have hent1 : (schedule_manual_job st t1 jid n1).1.entries
        = st.entries ++ [manualEntry t1 jid n1] := by
      rw [(schedule_manual_job_spec st t1 jid n1).2, if_neg (by simp [hm1])]
    have hm2after : hasEntry (schedule_manual_job st t1 jid n1).1.entries
        (.manual jid t2) = false := by
      rw [hent1, hasEntry_append, hm2]
      simp [hasEntry, manualEntry]
      exact fun h => hid (h ▸ rfl)
    have hb2 : (schedule_manual_job ((schedule_manual_job st t1 jid n1).1)
        t2 jid n2).2 = true := by
      rw [(schedule_manual_job_spec _ t2 jid n2).1, hm2after]
      rfl
    have hent2 : (schedule_manual_job ((schedule_manual_job st t1 jid n1).1)
        t2 jid n2).1.entries
        = (st.entries ++ [manualEntry t1 jid n1]) ++ [manualEntry t2 jid n2] := by
      rw [(schedule_manual_job_spec _ t2 jid n2).2, if_neg (by
        simp [hm2after]), hent1]
    refine ⟨hb1, hb2, ?_, ?_, hid⟩
    · rw [hent2, hasEntry_append, hasEntry_append]
      simp [hasEntry, manualEntry]
    · rw [hent2, hasEntry_append]
      simp [hasEntry, manualEntry]

/-- Witness for C8 at a concrete state: two manual installs for job 1 at
timestamps 0 and 1 on the fresh state both succeed with distinct ids. -/
theorem schedule_manual_job_distinct_entries_witness :
    ((schedule_manual_job ((schedule_manual_job stFresh 0 1 "alpha").1) 1 1
        "alpha").1.entries.map (fun e => e.entryId)).Nodup
    ∧ (schedule_manual_job stFresh 0 1 "alpha").2 = true
    ∧ ¬ (EntryId.manual 1 0 = EntryId.manual 1 1) :=
  have h := schedule_manual_job_distinct_entries stFresh 0 1 1 "alpha" "alpha"
  have h3 := h.2.2 (by decide) rfl rfl
  ⟨h.1 (by decide), h3.1, h3.2.2.2.2⟩

/-! ## Claim C9 -/

/-- Claim C9: `get_job_runs` raises exactly when the job id does not exist;
when the job exists it returns the runs of the job ordered by `started_at`
descending, truncated to `limit`, and an existing job with no runs yields
the empty list. -/
theorem get_job_runs_spec :
    ∀ (jobs : List Job) (runs : List JobRun) (jid limit : Nat),
      (findJob jobs jid = none →
        get_job_runs jobs runs jid limit
          = .error ("Job " ++ toString jid ++ " not found"))
      ∧ (∀ job, findJob jobs jid = some job →
        get_job_runs jobs runs jid limit
          = .ok (((runs.filter (fun r => r.job_id == jid)).insertionSort
              startedDesc).take limit))
      ∧ (∀ l, get_job_runs jobs runs jid limit = .ok l →
          l.length ≤ limit
          ∧ List.Pairwise startedDesc l
          ∧ (∀ r ∈ l, r.job_id = jid)
          ∧ (runs.filter (fun r => r.job_id == jid) = [] → l = [])) := by
  intro jobs runs jid limit
  refine ⟨?_, ?_, ?_⟩
  · intro hfind
    simp [get_job_runs, hfind]
  · intro job hfind
    simp [get_job_runs, hfind]
  · intro l hok
    cases hfind : findJob jobs jid with
    | none => rw [get_job_runs, hfind] at hok; simp at hok
    | some job =>
      rw [get_job_runs, hfind] at hok
      simp only [Except.ok.injEq] at hok
      subst hok
      refine ⟨?_, ?_, ?_, ?_⟩
      · rw [List.length_take]
        exact min_le_left _ _
      · exact List.Pairwise.sublist (List.take_sublist _ _)
          (List.sorted_insertionSort startedDesc
            (runs.filter (fun r => r.job_id == jid)))
      · intro r hr
        have hr2 : r ∈ (runs.filter (fun r => r.job_id == jid)).insertionSort
            startedDesc := List.take_subset _ _ hr
        have hr3 : r ∈ runs.filter (fun r => r.job_id == jid) :=
          (List.perm_insertionSort startedDesc _).mem_iff.mp hr2
        have := List.of_mem_filter hr3
        simpa using this
      · intro hfil
        rw [hfil]
        simp [List.insertionSort]

/-- Witness for C9: on a table holding only job 1, querying job 2 errors,
and querying job 1 with runs `[runDone, runRunning]` and limit 1 returns
the single most recent run. -/
theorem get_job_runs_spec_witness :
    get_job_runs [jobAlpha] [runRunning] 2 50
      = .error ("Job " ++ toString 2 ++ " not found")
    ∧ ([runRunning] : List JobRun).length ≤ 1 :=
  ⟨(get_job_runs_spec [jobAlpha] [runRunning] 2 50).1 rfl,
   ((get_job_runs_spec [jobAlpha] [runDone, runRunning] 1 1).2.2 [runRunning]
     rfl).1⟩

/-! ## Claim C10 -/

/-- Claim C10: the child process environment is the parent environment plus
exactly the three job-identity variables: every key other than
`JOB_CONFIG`/`JOB_ID`/`JOB_NAME` maps exactly as in the parent, the three
identity keys carry the serialized config, the job id string and the job
name, and every key defined in the parent is still defined in the child. -/
theorem child_env_superset :
    ∀ (parent : String → Option String) (job : Job) (jid : Nat)
      (k : String),
      (¬ k ∈ jobIdentityKeys → buildChildEnv parent job jid k = parent k)
      ∧ buildChildEnv parent job jid "JOB_CONFIG" = some job.config
      ∧ buildChildEnv parent job jid "JOB_ID" = some (toString jid)
      ∧ buildChildEnv parent job jid "JOB_NAME" = some job.name
      ∧ ((parent k).isSome = true →
          (buildChildEnv parent job jid k).isSome = true) := by
  intro parent job jid k
  refine ⟨?_, ?_, ?_, ?_, ?_⟩
  · intro hk
    simp only [jobIdentityKeys, List.mem_cons, List.not_mem_nil, or_false,
      not_or] at hk
    obtain ⟨h1, h2, h3⟩ := hk
    unfold buildChildEnv
    rw [if_neg h1, if_neg h2, if_neg h3]
  · simp [buildChildEnv]
  · simp [buildChildEnv]
  · simp [buildChildEnv]
  · intro h
    unfold buildChildEnv
    split_ifs <;> simp [h]

/-- Witness for C10: a parent with only `PATH` set; the child keeps `PATH`
and gains `JOB_ID`. -/
theorem child_env_superset_witness :
    buildChildEnv parentEnv jobAlpha 1 "PATH" = parentEnv "PATH"
    ∧ buildChildEnv parentEnv jobAlpha 1 "JOB_ID" = some (toString 1)
    ∧ (buildChildEnv parentEnv jobAlpha 1 "PATH").isSome = true :=
  have h := child_env_superset parentEnv jobAlpha 1 "PATH"
  ⟨h.1 (by decide), h.2.2.1, h.2.2.2.2 rfl⟩

end QuickETL
